import Mathlib

/-!
Verification of the text-extraction and NLP-analysis pipeline
(`main_pipline.py`).

The Python source is shallowly embedded: pure helper functions become Lean
functions on `List Char` / `String`; Python `float` arithmetic on the metric
formulas is modelled by exact rational arithmetic (`ℚ`), with the literal
`0.000001` rendered as `1/1000000` and `0.4` as `4/10`; Python `int` counters
become `Int`/`Nat`.  External capabilities (the NLTK sentence and word
tokenizers, the lexicon sets loaded from files, the article store on disk and
the HTTP layer) are parameters of the embedded functions, exactly as the
specification treats them (black boxes).
-/

/-- Python membership test `char in "aeiou"` used by `count_syllables`. -/
def is_vowel (c : Char) : Bool := c ∈ ['a', 'e', 'i', 'o', 'u']

/-- The `for char in word` loop of `count_syllables`: running count of vowel
groups, with `prev` the `prev_vowel` flag. -/
def syllable_scan : List Char → Bool → Int
  | [], _ => 0
  | c :: cs, prev =>
    if is_vowel c then (if prev then 0 else 1) + syllable_scan cs true
    else syllable_scan cs false

/-- Python `word.endswith(("es", "ed"))` on a list of characters. -/
def ends_es_ed (w : List Char) : Bool :=
  match w.reverse with
  | 's' :: 'e' :: _ => true
  | 'd' :: 'e' :: _ => true
  | _ => false

/-- Embedding of `count_syllables(word)` from `main_pipline.py`: lower-case
the word, count vowel groups, subtract 1 when the word ends in `es` or `ed`,
and floor the result at 1 via `max(count, 1)`. -/
def count_syllables (word : String) : Int :=
  let w := word.data.map Char.toLower
  let count := syllable_scan w false
  let count := if ends_es_ed w then count - 1 else count
  max count 1

/-- Embedding of `is_complex(word)`: syllable count strictly greater than 2. -/
def is_complex (word : String) : Bool := count_syllables word > 2

/-- Python `str.lower()` (ASCII model, matching `Char.toLower`). -/
def py_lower (s : String) : String := String.mk (s.data.map Char.toLower)

/-- Python `str.isalpha()`: non-empty and every character alphabetic. -/
def py_isalpha (s : String) : Bool := !s.data.isEmpty && s.data.all Char.isAlpha

/-- The cleaned-word list built by `analyze_text`:
`[w.lower() for w in words if w.isalpha() and w.lower() not in stop_words]`. -/
def cleaned_words (words : List String) (stop_words : String → Bool) : List String :=
  (words.filter (fun w => py_isalpha w && !stop_words (py_lower w))).map py_lower

/-- The polarity formula of `analyze_text`:
`(positive_score - negative_score) / ((positive_score + negative_score) + 0.000001)`. -/
def polarity_score (p n : ℚ) : ℚ := (p - n) / (p + n + 1 / 1000000)

/-- Word-character predicate of Python's regex `\b` boundaries
(`[A-Za-z0-9_]`, ASCII model). -/
def is_word_char (c : Char) : Bool := c.isAlphanum || c == '_'

/-- The five alternatives of the pattern `\b(I|we|my|ours|us)\b`, lower-cased
(the regex is compiled with `re.I`). -/
def pronoun_list : List (List Char) := [['i'], ['w', 'e'], ['m', 'y'], ['o', 'u', 'r', 's'], ['u', 's']]

/-- Case-insensitive literal match at the head of the text: returns the rest
of the text after the pattern `p` when every character matches. -/
def dropCI : List Char → List Char → Option (List Char)
  | [], rest => some rest
  | _ :: _, [] => none
  | p :: ps, c :: cs => if c.toLower = p then dropCI ps cs else none

/-- The trailing `\b` of the pattern: satisfied at end of text or before a
non-word character (every pattern character is a word character). -/
def at_word_end : List Char → Bool
  | [] => true
  | c :: _ => !is_word_char c

/-- Regex alternation with backtracking: try each alternative in order,
requiring the trailing word boundary after the literal. -/
def match_pronoun : List (List Char) → List Char → Option (List Char)
  | [], _ => none
  | p :: ps, t =>
    match dropCI p t with
    | some rest => if at_word_end rest then some rest else match_pronoun ps t
    | none => match_pronoun ps t

theorem dropCI_length : ∀ (p t r : List Char), dropCI p t = some r → r.length + p.length = t.length := by
  intro p
  induction p with
  | nil => intro t r h; simp [dropCI] at h; simp [h]
  | cons a as ih =>
    intro t r h
    cases t with
    | nil => simp [dropCI] at h
    | cons c cs =>
      simp only [dropCI] at h
      by_cases hc : c.toLower = a
      · simp [hc] at h
        have := ih cs r h
        simp [List.length_cons]
        omega
      · simp [hc] at h

theorem match_pronoun_length : ∀ (ps : List (List Char)) (t r : List Char),
    (∀ p ∈ ps, p ≠ []) → match_pronoun ps t = some r → r.length < t.length := by
  intro ps
  induction ps with
  | nil => intro t r _ h; simp [match_pronoun] at h
  | cons p ps ih =>
    intro t r hne h
    simp only [match_pronoun] at h
    cases hd : dropCI p t with
    | none =>
      rw [hd] at h
      exact ih t r (fun q hq => hne q (List.mem_cons_of_mem _ hq)) h
    | some rest =>
      rw [hd] at h
      by_cases hb : at_word_end rest = true
      · simp only [hb, if_true] at h
        have hlen := dropCI_length p t rest hd
        have hp : p ≠ [] := hne p (List.mem_cons_self _ _)
        have hpl : 0 < p.length := List.length_pos.mpr hp
        cases h
        omega
      · simp [hb] at h
        exact ih t r (fun q hq => hne q (List.mem_cons_of_mem _ hq)) h

theorem pronoun_list_nonempty : ∀ p ∈ pronoun_list, p ≠ [] := by decide

/-- The `re.findall` scan of `count_personal_pronouns`: walk the text left to
right; at a position whose preceding character is not a word character (the
leading `\b`), try the alternation; on a match, count it and resume after the
matched word; otherwise advance one character.  `prevW` records whether the
previous character was a word character. -/
def scan_pronouns : List Char → Bool → Nat
  | [], _ => 0
  | c :: cs, prevW =>
    if prevW then scan_pronouns cs (is_word_char c)
    else
      match h : match_pronoun pronoun_list (c :: cs) with
      | some rest => 1 + scan_pronouns rest true
      | none => scan_pronouns cs (is_word_char c)
termination_by t _ => t.length
decreasing_by
  · simp
  · exact match_pronoun_length pronoun_list _ rest pronoun_list_nonempty h
  · simp

/-- Embedding of `count_personal_pronouns(text)`:
`len(re.findall(r"\b(I|we|my|ours|us)\b", text, re.I))`. -/
def count_personal_pronouns (text : String) : Nat := scan_pronouns text.data false

theorem length_dropWhile_le {α : Type} (p : α → Bool) (l : List α) :
    (l.dropWhile p).length ≤ l.length := by
  induction l with
  | nil => simp
  | cons c cs ih =>
    rw [List.dropWhile_cons]
    split
    · exact Nat.le_trans ih (Nat.le_succ _)
    · simp

/-- Whole-word pronoun counting as the specification words it: the number of
maximal word-character runs of the text whose lower-cased form is one of the
five pronouns.  This is the spec-side description compared against the
`re.findall` embedding in claim C9. -/
def pronoun_run_count : List Char → Nat
  | [] => 0
  | c :: cs =>
    if h : is_word_char c then
      (if pronoun_list.contains (((c :: cs).takeWhile is_word_char).map Char.toLower) then 1 else 0)
        + pronoun_run_count ((c :: cs).dropWhile is_word_char)
    else pronoun_run_count cs
termination_by t => t.length
decreasing_by
  · simp only [List.dropWhile_cons, h, if_true]
    exact Nat.lt_succ_of_le (length_dropWhile_le _ _)
  · simp

/-- Spec-side count of whole-word, case-insensitive pronoun occurrences. -/
def whole_word_pronoun_count (text : String) : Nat := pronoun_run_count text.data

/-- Embedding of `analyze_text(text, stop_words, positive_words,
negative_words)`.  The tokenizers `sent_tok` and `word_tok` stand for NLTK's
`sent_tokenize` and `word_tokenize` (external black boxes per the spec); the
three lexicons are membership predicates.  The returned 13 rationals follow
the source's return list order. -/
def analyze_text (text : String) (sent_tok word_tok : String → List String)
    (stop_words positive_words negative_words : String → Bool) : List ℚ :=
  let sentences := sent_tok text
  let words := word_tok text
  let cleaned := cleaned_words words stop_words
  let word_count := cleaned.length
  let sentence_count := sentences.length
  let positive_score := cleaned.countP positive_words
  let negative_score := cleaned.countP negative_words
  let polarity := polarity_score positive_score negative_score
  let subjectivity : ℚ := ((positive_score : ℚ) + (negative_score : ℚ)) / ((word_count : ℚ) + 1 / 1000000)
  let avg_sentence_length : ℚ := if sentence_count = 0 then 0 else (word_count : ℚ) / (sentence_count : ℚ)
  let complex_word_count := (cleaned.filter (fun w => is_complex w)).length
  let percentage_complex_words : ℚ := if word_count = 0 then 0 else (complex_word_count : ℚ) / (word_count : ℚ)
  let fog_index : ℚ := (4 / 10) * (avg_sentence_length + percentage_complex_words)
  let syllables_per_word : ℚ := if word_count = 0 then 0 else ((cleaned.map count_syllables).sum : ℚ) / (word_count : ℚ)
  let personal_pronouns := count_personal_pronouns text
  let avg_word_length : ℚ := if word_count = 0 then 0 else ((cleaned.map String.length).sum : ℚ) / (word_count : ℚ)
  [(positive_score : ℚ), (negative_score : ℚ), polarity, subjectivity,
   avg_sentence_length, percentage_complex_words, fog_index, avg_sentence_length,
   (complex_word_count : ℚ), (word_count : ℚ), syllables_per_word,
   (personal_pronouns : ℚ), avg_word_length]

/-- Abstraction of a received HTTP response as `extract_articles` consumes it:
the status code, the text of the first `h1` element (if any), and the
stripped paragraph texts of the `td-post-content` container (if present). -/
structure HttpResponse where
  status : Nat
  h1_text : Option String
  content_paragraphs : Option (List String)

/-- The body of the per-request `try` block of `extract_articles`, for one
request: `Except.error` stands for a raised network/retry exception before a
response is available; on a response, `raise_for_status` raises for status
≥ 400; otherwise the file content `title_text + "\n\n" + article_text` is
written.  The result is the article file content, or `none` when the
exception handler runs (failure logged, no file written for this id). -/
def extract_one (resp : Except Unit HttpResponse) : Option String :=
  match resp with
  | .error _ => none
  | .ok r =>
    if 400 ≤ r.status then none
    else
      let title_text := (r.h1_text).getD ""
      let article_text :=
        match r.content_paragraphs with
        | some ps => String.intercalate "\n" ps
        | none => ""
      some (title_text ++ "\n\n" ++ article_text)

/-- The `extract_articles` loop over the input rows: each request is handled
independently by `extract_one`; the result lists the `(url_id, content)`
article files written.  A failing request contributes no file and does not
stop the batch. -/
def extract_articles (rows : List (String × Except Unit HttpResponse)) : List (String × String) :=
  rows.filterMap (fun row => (extract_one row.2).map (fun content => (row.1, content)))

/-- Network / retry configuration constants of `main_pipline.py`. -/
def REQUEST_TIMEOUT : Nat := 15

def RETRY_TOTAL : Nat := 3

def RETRY_BACKOFF : ℚ := 1

/-- The `status_forcelist` passed to `urllib3.util.retry.Retry`. -/
def status_forcelist : List Nat := [429, 500, 502, 503, 504]

/-- Outcome of a single HTTP GET attempt as the retry layer classifies it. -/
inductive AttemptOutcome where
  | connError : AttemptOutcome
  | readError : AttemptOutcome
  | status : Nat → AttemptOutcome

/-- Whether the configured `Retry` object retries after this outcome:
connection errors, read errors (GET is in `allowed_methods`), and responses
whose status is in the force list. -/
def retry_required : AttemptOutcome → Bool
  | .connError => true
  | .readError => true
  | .status code => status_forcelist.contains code

/-- Modelled from `urllib3.util.retry.Retry` as configured by
`extract_articles` (`total=RETRY_TOTAL`): the session issues an attempt; when
the outcome requires a retry, `Retry.increment` decrements `total`, and a new
attempt is issued unless the counters are exhausted (`total` would drop below
zero).  `outcomes i` is the outcome of the i-th attempt; the result is the
number of GET attempts issued for one URL. -/
def retry_attempts : Nat → (Nat → AttemptOutcome) → Nat
  | 0, _ => 1
  | total + 1, outcomes =>
    if retry_required (outcomes 0) then
      1 + retry_attempts total (fun i => outcomes (i + 1))
    else 1

/-- Modelled from `urllib3.util.retry.Retry.get_backoff_time` with
`backoff_factor = RETRY_BACKOFF`: no sleep before the first retry, then
`backoff_factor * 2 ^ (consecutive_errors - 1)` seconds, capped at the
default maximum of 120. -/
def get_backoff_time (consecutive_errors : Nat) : ℚ :=
  if consecutive_errors ≤ 1 then 0
  else min 120 (RETRY_BACKOFF * 2 ^ (consecutive_errors - 1))

/-- Phase B of `main()`: walk the input rows in order; rows whose article is
absent from the store are skipped (`continue`); otherwise the stored text is
analysed and `[url_id, url] + metrics` is appended to the results. -/
def analysis_loop (rows : List (String × String)) (store : String → Option String)
    (sent_tok word_tok : String → List String)
    (stop_words positive_words negative_words : String → Bool) :
    List (String × String × List ℚ) :=
  match rows with
  | [] => []
  | (url_id, url) :: rest =>
    match store url_id with
    | none => analysis_loop rest store sent_tok word_tok stop_words positive_words negative_words
    | some text =>
      (url_id, url, analyze_text text sent_tok word_tok stop_words positive_words negative_words) ::
        analysis_loop rest store sent_tok word_tok stop_words positive_words negative_words

/-- C1 counterexample: the code returns 1 for "created", not 2 — the adjacent
vowels "e","a" form a single vowel group, so the scan finds 2 groups ("ea",
"e"), and the "ed" ending brings the count to 1. -/
theorem C1_created_counterexample :
    count_syllables "created" = 1 ∧ count_syllables "created" ≠ 2 := by decide

/-- C1 (amended): `count_syllables "created" = 1` (vowel groups "ea","e" = 2,
minus 1 for the "ed" ending), and `is_complex "created"` is false. -/
theorem C1_created_syllables : count_syllables "created" = 1 ∧ is_complex "created" = false := by
  decide

/-- C2: for every non-empty alphabetic word the syllable count is at least 1
(the `max(count, 1)` floor). -/
theorem C2_count_syllables_pos (w : String) (h₁ : w.data ≠ [])
    (h₂ : ∀ c ∈ w.data, c.isAlpha) : 1 ≤ count_syllables w :=
  le_max_right _ _

theorem C2_count_syllables_pos_witness :
    "es".data ≠ [] ∧ (∀ c ∈ "es".data, c.isAlpha) ∧ 1 ≤ count_syllables "es" :=
  ⟨by decide, by decide, C2_count_syllables_pos "es" (by decide) (by decide)⟩

/-- C4: for non-negative scores the polarity formula stays within [-1, 1]
because the denominator exceeds the absolute numerator. -/
theorem C4_polarity_bounds (p n : ℚ) (hp : 0 ≤ p) (hn : 0 ≤ n) :
    -1 ≤ polarity_score p n ∧ polarity_score p n ≤ 1 := by
  have hd : 0 < p + n + 1 / 1000000 := by positivity
  constructor
  · rw [polarity_score, le_div_iff hd]
    linarith
  · rw [polarity_score, div_le_one hd]
    linarith

theorem C4_polarity_bounds_witness :
    (0 : ℚ) ≤ 3 ∧ (0 : ℚ) ≤ 1 ∧ (-1 ≤ polarity_score 3 1 ∧ polarity_score 3 1 ≤ 1) :=
  ⟨by norm_num, by norm_num, C4_polarity_bounds 3 1 (by norm_num) (by norm_num)⟩

/-- C3: when the cleaned-word list is empty (word count 0), the four averaged
metrics — average sentence length (index 4), percentage of complex words
(index 5), syllables per word (index 10) and average word length (index 12)
— are all 0, whatever the sentence count. -/
theorem C3_zero_word_count (text : String) (sent_tok word_tok : String → List String)
    (stop_words positive_words negative_words : String → Bool)
    (h : cleaned_words (word_tok text) stop_words = []) :
    (analyze_text text sent_tok word_tok stop_words positive_words negative_words).getD 4 0 = 0 ∧
    (analyze_text text sent_tok word_tok stop_words positive_words negative_words).getD 5 0 = 0 ∧
    (analyze_text text sent_tok word_tok stop_words positive_words negative_words).getD 10 0 = 0 ∧
    (analyze_text text sent_tok word_tok stop_words positive_words negative_words).getD 12 0 = 0 := by
  simp [analyze_text, h, List.getD]

theorem C3_zero_word_count_witness :
    cleaned_words ((fun _ => ([] : List String)) "") (fun _ => false) = [] ∧
    (analyze_text "" (fun _ => []) (fun _ => []) (fun _ => false) (fun _ => false)
      (fun _ => false)).getD 4 0 = 0 :=
  ⟨rfl, (C3_zero_word_count "" (fun _ => []) (fun _ => []) (fun _ => false) (fun _ => false)
    (fun _ => false) rfl).1⟩

/-- C8: the 8th entry of the metrics vector (index 7) repeats the 5th
(index 4): `avg_sentence_length` appears twice in the return list. -/
theorem C8_avg_sentence_length_duplicated (text : String)
    (sent_tok word_tok : String → List String)
    (stop_words positive_words negative_words : String → Bool) :
    (analyze_text text sent_tok word_tok stop_words positive_words negative_words).getD 7 0 =
    (analyze_text text sent_tok word_tok stop_words positive_words negative_words).getD 4 0 := rfl

/-- C10: each cleaned word contributes at most one to the positive, negative
and complex counts, so those counts (indices 0, 1, 8) are bounded by the word
count (index 9), and the percentage of complex words (index 5) lies in
[0, 1]. -/
theorem C10_counts_bounded (text : String) (sent_tok word_tok : String → List String)
    (stop_words positive_words negative_words : String → Bool) :
    ((analyze_text text sent_tok word_tok stop_words positive_words negative_words).getD 0 0 ≤
      (analyze_text text sent_tok word_tok stop_words positive_words negative_words).getD 9 0) ∧
    ((analyze_text text sent_tok word_tok stop_words positive_words negative_words).getD 1 0 ≤
      (analyze_text text sent_tok word_tok stop_words positive_words negative_words).getD 9 0) ∧
    ((analyze_text text sent_tok word_tok stop_words positive_words negative_words).getD 8 0 ≤
      (analyze_text text sent_tok word_tok stop_words positive_words negative_words).getD 9 0) ∧
    (0 ≤ (analyze_text text sent_tok word_tok stop_words positive_words negative_words).getD 5 0) ∧
    ((analyze_text text sent_tok word_tok stop_words positive_words negative_words).getD 5 0 ≤ 1) := by
  simp only [analyze_text, List.getD_cons_zero, List.getD_cons_succ]
  refine ⟨?_, ?_, ?_, ?_, ?_⟩
  · exact_mod_cast List.countP_le_length _
  · exact_mod_cast List.countP_le_length _
  · exact_mod_cast List.length_filter_le _ _
  · split
    · exact le_refl 0
    · positivity
  · split
    · exact zero_le_one
    · rename_i hne
      rw [div_le_one (by exact_mod_cast Nat.pos_of_ne_zero hne)]
      exact_mod_cast List.length_filter_le _ _

/-- C5 counterexample: a 2xx response with no `h1` and no article container
still produces an article file, whose content is just the separator. -/
theorem C5_empty_parse_counterexample :
    extract_one (.ok ⟨200, none, none⟩) ≠ none ∧
    extract_one (.ok ⟨200, none, none⟩) = some "\n\n" := by
  constructor
  · simp [extract_one]
  · rfl

/-- C5 (amended): a 2xx response whose parse yields no title and no article
body is not treated as a failure: the article file is written for that id
(content `"\n\n"`), and the remaining requests of the batch are still
processed. -/
theorem C5_empty_parse_writes_file (r : HttpResponse) (url_id : String)
    (rest : List (String × Except Unit HttpResponse))
    (h2 : r.status < 400) (hh : r.h1_text = none) (hc : r.content_paragraphs = none) :
    extract_one (.ok r) = some "\n\n" ∧
    extract_articles ((url_id, .ok r) :: rest) = (url_id, "\n\n") :: extract_articles rest := by
  have h1 : extract_one (.ok r) = some "\n\n" := by
    simp [extract_one, hh, hc, Nat.not_le.mpr h2]
  exact ⟨h1, by simp [extract_articles, h1]⟩

theorem C5_empty_parse_writes_file_witness :
    (200 : Nat) < 400 ∧
    extract_one (.ok ⟨200, none, none⟩) = some "\n\n" ∧
    extract_articles [("37", .ok ⟨200, none, none⟩)] = [("37", "\n\n")] :=
  ⟨by decide, C5_empty_parse_writes_file ⟨200, none, none⟩ "37" [] (by decide) rfl rfl⟩

theorem retry_attempts_le : ∀ (total : Nat) (outcomes : Nat → AttemptOutcome),
    retry_attempts total outcomes ≤ total + 1 := by
  intro total
  induction total with
  | zero => intro outcomes; simp [retry_attempts]
  | succ n ih =>
    intro outcomes
    simp only [retry_attempts]
    split
    · have := ih (fun i => outcomes (i + 1))
      omega
    · omega

/-- C6 counterexample: with `total = RETRY_TOTAL = 3`, a URL that keeps
failing with connection errors is attempted 4 times (1 initial attempt plus
3 retries), not at most 3. -/
theorem C6_four_attempts_counterexample :
    retry_attempts RETRY_TOTAL (fun _ => .connError) = 4 ∧ ¬(4 ≤ 3) := ⟨rfl, by decide⟩

/-- C6 (amended): at most `RETRY_TOTAL + 1 = 4` GET attempts are made per
URL, retries happen only on connection failure, read failure, or a status in
{429, 500, 502, 503, 504}, and the backoff delays before the 1st, 2nd and 3rd
retries are 0s, 2s and 4s. -/
theorem C6_retry_policy :
    (∀ outcomes : Nat → AttemptOutcome, retry_attempts RETRY_TOTAL outcomes ≤ 4) ∧
    (∀ code : Nat, retry_required (.status code) = status_forcelist.contains code) ∧
    retry_required .connError = true ∧ retry_required .readError = true ∧
    get_backoff_time 1 = 0 ∧ get_backoff_time 2 = 2 ∧ get_backoff_time 3 = 4 := by
  refine ⟨fun outcomes => retry_attempts_le RETRY_TOTAL outcomes, fun code => rfl, rfl, rfl, ?_, ?_, ?_⟩
  · norm_num [get_backoff_time]
  · norm_num [get_backoff_time, RETRY_BACKOFF]
  · norm_num [get_backoff_time, RETRY_BACKOFF]

/-- C7: the analysis phase emits exactly one row per request whose article is
present in the store, in the original request order; requests without a
stored article are skipped. -/
theorem C7_report_rows (rows : List (String × String)) (store : String → Option String)
    (sent_tok word_tok : String → List String)
    (stop_words positive_words negative_words : String → Bool) :
    analysis_loop rows store sent_tok word_tok stop_words positive_words negative_words =
      (rows.filter (fun row => (store row.1).isSome)).map
        (fun row => (row.1, row.2,
          analyze_text ((store row.1).getD "") sent_tok word_tok stop_words positive_words
            negative_words)) := by
  induction rows with
  | nil => rfl
  | cons row rest ih =>
    obtain ⟨url_id, url⟩ := row
    cases h : store url_id with
    | none => simp [analysis_loop, h, ih]
    | some text => simp [analysis_loop, h, ih]

theorem char_toLower_eq_self (c : Char) (h : ¬(65 ≤ c.toNat ∧ c.toNat ≤ 90)) : c.toLower = c := by
  simp [Char.toLower]
  omega

theorem char_upper_isAlpha (c : Char) (h : 65 ≤ c.toNat ∧ c.toNat ≤ 90) : c.isAlpha = true := by
  simp only [Char.isAlpha, Char.isUpper, Char.isLower, Bool.or_eq_true, Bool.and_eq_true,
    decide_eq_true_eq, ge_iff_le, UInt32.le_def, BitVec.le_def]
  left
  exact h

theorem not_word_toLower (c : Char) (h : is_word_char c = false) : c.toLower = c := by
  apply char_toLower_eq_self
  intro hc
  have ha := char_upper_isAlpha c hc
  simp [is_word_char, Char.isAlphanum, ha] at h

theorem word_of_toLower_alpha (c a : Char) (ha : a.isAlpha = true) (h : c.toLower = a) :
    is_word_char c = true := by
  by_cases hu : 65 ≤ c.toNat ∧ c.toNat ≤ 90
  · have := char_upper_isAlpha c hu
    simp [is_word_char, Char.isAlphanum, this]
  · rw [char_toLower_eq_self c hu] at h
    subst h
    simp [is_word_char, Char.isAlphanum, ha]

theorem scan_pronouns_nil (b : Bool) : scan_pronouns [] b = 0 := by
  rw [scan_pronouns]

theorem scan_pronouns_cons_true (c : Char) (cs : List Char) :
    scan_pronouns (c :: cs) true = scan_pronouns cs (is_word_char c) := by
  rw [scan_pronouns, if_pos rfl]

theorem scan_pronouns_cons_some (c : Char) (cs rest : List Char)
    (h : match_pronoun pronoun_list (c :: cs) = some rest) :
    scan_pronouns (c :: cs) false = 1 + scan_pronouns rest true := by
  rw [scan_pronouns, if_neg Bool.false_ne_true]
  split
  · rename_i r heq
    rw [h] at heq
    cases heq
    rfl
  · rename_i heq
    rw [h] at heq
    cases heq

theorem scan_pronouns_cons_none (c : Char) (cs : List Char)
    (h : match_pronoun pronoun_list (c :: cs) = none) :
    scan_pronouns (c :: cs) false = scan_pronouns cs (is_word_char c) := by
  rw [scan_pronouns, if_neg Bool.false_ne_true]
  split
  · rename_i r heq
    rw [h] at heq
    cases heq
  · rfl

theorem pronoun_run_count_nil : pronoun_run_count [] = 0 := by
  rw [pronoun_run_count]

theorem pronoun_run_count_cons_word (c : Char) (cs : List Char) (h : is_word_char c = true) :
    pronoun_run_count (c :: cs) =
      (if pronoun_list.contains (((c :: cs).takeWhile is_word_char).map Char.toLower) then 1 else 0)
        + pronoun_run_count ((c :: cs).dropWhile is_word_char) := by
  rw [pronoun_run_count]
  simp [h]

theorem pronoun_run_count_cons_nonword (c : Char) (cs : List Char) (h : is_word_char c = false) :
    pronoun_run_count (c :: cs) = pronoun_run_count cs := by
  rw [pronoun_run_count]
  simp [h]

theorem dropCI_append (p pre q : List Char) (h : pre.map Char.toLower = p) :
    dropCI p (pre ++ q) = some q := by
  induction pre generalizing p with
  | nil =>
    subst h
    rfl
  | cons c cs ih =>
    subst h
    simp only [List.map_cons, List.cons_append, dropCI, if_pos rfl]
    exact ih _ rfl

theorem dropCI_decomp (p t q : List Char) (h : dropCI p t = some q) :
    ∃ pre, t = pre ++ q ∧ pre.map Char.toLower = p := by
  induction p generalizing t with
  | nil =>
    simp [dropCI] at h
    exact ⟨[], by simp [h], rfl⟩
  | cons a as ih =>
    cases t with
    | nil => simp [dropCI] at h
    | cons c cs =>
      simp only [dropCI] at h
      by_cases hc : c.toLower = a
      · rw [if_pos hc] at h
        obtain ⟨pre, rfl, hm⟩ := ih cs h
        exact ⟨c :: pre, rfl, by simp [hm, hc]⟩
      · rw [if_neg hc] at h
        cases h

theorem at_word_end_append (l q : List Char) (hl : l ≠ [])
    (hw : ∀ c ∈ l, is_word_char c = true) : at_word_end (l ++ q) = false := by
  cases l with
  | nil => exact absurd rfl hl
  | cons x xs => simp [at_word_end, hw x (List.mem_cons_self _ _)]

theorem match_at_run (r rest q p : List Char) (hr : r ≠ [])
    (hw : ∀ c ∈ r, is_word_char c = true) (hb : at_word_end rest = true)
    (hp : ∀ a ∈ p, a.isAlpha = true)
    (h : dropCI p (r ++ rest) = some q) (hq : at_word_end q = true) :
    p = r.map Char.toLower ∧ q = rest := by
  obtain ⟨pre, heq, hm⟩ := dropCI_decomp p _ q h
  have hpw : ∀ c ∈ pre, is_word_char c = true := by
    intro c hc
    have : c.toLower ∈ p := hm ▸ List.mem_map_of_mem _ hc
    exact word_of_toLower_alpha c _ (hp _ this) rfl
  rcases Nat.lt_trichotomy pre.length r.length with hlt | heqlen | hgt
  · exfalso
    have hdrop : q = r.drop pre.length ++ rest := by
      have h1 : (pre ++ q).drop pre.length = q := List.drop_left pre q
      have h2 : (r ++ rest).drop pre.length = r.drop pre.length ++ rest :=
        List.drop_append_of_le_length (Nat.le_of_lt hlt)
      rw [← heq] at h1
      rw [← h1, h2]
    have hne : r.drop pre.length ≠ [] := by
      intro hnil
      have := congrArg List.length hnil
      simp [List.length_drop] at this
      omega
    have hwd : ∀ c ∈ r.drop pre.length, is_word_char c = true :=
      fun c hc => hw c (List.drop_subset _ _ hc)
    rw [hdrop, at_word_end_append _ _ hne hwd] at hq
    cases hq
  · obtain ⟨h1, h2⟩ := List.append_inj heq heqlen.symm
    subst h1
    exact ⟨hm.symm, h2.symm⟩
  · exfalso
    have hdrop : rest = pre.drop r.length ++ q := by
      have h1 : (r ++ rest).drop r.length = rest := List.drop_left r rest
      have h2 : (pre ++ q).drop r.length = pre.drop r.length ++ q :=
        List.drop_append_of_le_length (Nat.le_of_lt hgt)
      rw [heq] at h1
      rw [← h1, h2]
    have hne : pre.drop r.length ≠ [] := by
      intro hnil
      have := congrArg List.length hnil
      simp [List.length_drop] at this
      omega
    have hwd : ∀ c ∈ pre.drop r.length, is_word_char c = true :=
      fun c hc => hpw c (List.drop_subset _ _ hc)
    rw [hdrop, at_word_end_append _ _ hne hwd] at hb
    cases hb

theorem pronoun_list_alpha : ∀ p ∈ pronoun_list, p ≠ [] ∧ ∀ a ∈ p, a.isAlpha = true := by decide

theorem match_pronoun_run (ps : List (List Char)) (r rest : List Char) (hr : r ≠ [])
    (hw : ∀ c ∈ r, is_word_char c = true) (hb : at_word_end rest = true)
    (hps : ∀ p ∈ ps, p ≠ [] ∧ ∀ a ∈ p, a.isAlpha = true) :
    match_pronoun ps (r ++ rest) =
      if ps.contains (r.map Char.toLower) then some rest else none := by
  induction ps with
  | nil => rfl
  | cons p ps ih =>
    have hmem : ∀ q ∈ ps, q ≠ [] ∧ ∀ a ∈ q, a.isAlpha = true :=
      fun q hq => hps q (List.mem_cons_of_mem _ hq)
    simp only [match_pronoun]
    by_cases hpr : p = r.map Char.toLower
    · have hd : dropCI p (r ++ rest) = some rest := dropCI_append p r rest hpr.symm
      rw [hd]
      simp [hb, List.contains_cons, hpr]
    · cases hd : dropCI p (r ++ rest) with
      | none =>
        rw [ih hmem]
        have hne2 : ¬(List.map Char.toLower r = p) := fun hh => hpr hh.symm
        simp [List.contains_cons, hne2]
      | some q =>
        by_cases hq : at_word_end q = true
        · exact absurd (match_at_run r rest q p hr hw hb (hps p (List.mem_cons_self _ _)).2 hd hq).1 hpr
        · simp only [hq, if_false, Bool.false_eq_true]
          rw [ih hmem]
          have hne2 : ¬(List.map Char.toLower r = p) := fun hh => hpr hh.symm
          simp [List.contains_cons, hne2]

theorem match_pronoun_nonword (ps : List (List Char)) (c : Char) (cs : List Char)
    (hc : is_word_char c = false)
    (hps : ∀ p ∈ ps, p ≠ [] ∧ ∀ a ∈ p, a.isAlpha = true) :
    match_pronoun ps (c :: cs) = none := by
  induction ps with
  | nil => rfl
  | cons p ps ih =>
    obtain ⟨hne, halpha⟩ := hps p (List.mem_cons_self _ _)
    cases p with
    | nil => exact absurd rfl hne
    | cons a as =>
      simp only [match_pronoun, dropCI]
      have hla : c.toLower ≠ a := by
        rw [not_word_toLower c hc]
        intro h
        subst h
        have hwc : is_word_char c = true := by
          simp [is_word_char, Char.isAlphanum, halpha c (List.mem_cons_self _ _)]
        rw [hwc] at hc
        cases hc
      rw [if_neg hla]
      exact ih (fun q hq => hps q (List.mem_cons_of_mem _ hq))

theorem at_word_end_dropWhile (l : List Char) :
    at_word_end (l.dropWhile is_word_char) = true := by
  induction l with
  | nil => rfl
  | cons c cs ih =>
    by_cases h : is_word_char c
    · simpa [List.dropWhile_cons, h] using ih
    · simp [List.dropWhile_cons, h, at_word_end]

theorem dropWhile_eq_self_of_at_word_end (l : List Char) (h : at_word_end l = true) :
    l.dropWhile is_word_char = l := by
  cases l with
  | nil => rfl
  | cons c cs =>
    simp only [at_word_end, Bool.not_eq_true'] at h
    simp [List.dropWhile_cons, h]

theorem scan_eq_run_count : ∀ (n : Nat) (t : List Char), t.length ≤ n →
    scan_pronouns t false = pronoun_run_count t ∧
    scan_pronouns t true = pronoun_run_count (t.dropWhile is_word_char) := by
  intro n
  induction n with
  | zero =>
    intro t ht
    have ht0 : t = [] := List.eq_nil_of_length_eq_zero (Nat.le_zero.mp ht)
    subst ht0
    simp [scan_pronouns_nil, pronoun_run_count_nil, List.dropWhile_nil]
  | succ n ih =>
    intro t ht
    cases t with
    | nil => simp [scan_pronouns_nil, pronoun_run_count_nil]
    | cons c cs =>
      have hcs : cs.length ≤ n := by
        simp only [List.length_cons] at ht
        omega
      by_cases hc : is_word_char c = true
      · have happ : (c :: cs).takeWhile is_word_char ++ (c :: cs).dropWhile is_word_char
            = c :: cs := List.takeWhile_append_dropWhile _ _
        have hrne : (c :: cs).takeWhile is_word_char ≠ [] := by
          simp [List.takeWhile_cons, hc]
        have hrw : ∀ x ∈ (c :: cs).takeWhile is_word_char, is_word_char x = true :=
          fun x hx => List.mem_takeWhile_imp hx
        have hbrest : at_word_end ((c :: cs).dropWhile is_word_char) = true :=
          at_word_end_dropWhile _
        have hdw : (c :: cs).dropWhile is_word_char = cs.dropWhile is_word_char := by
          simp [List.dropWhile_cons, hc]
        have hrest_len : ((c :: cs).dropWhile is_word_char).length ≤ n := by
          rw [hdw]
          exact Nat.le_trans (length_dropWhile_le _ _) hcs
        have hmatch : match_pronoun pronoun_list (c :: cs) =
            if pronoun_list.contains (((c :: cs).takeWhile is_word_char).map Char.toLower)
            then some ((c :: cs).dropWhile is_word_char) else none := by
          conv_lhs => rw [← happ]
          exact match_pronoun_run _ _ _ hrne hrw hbrest pronoun_list_alpha
        have hscan_true : scan_pronouns ((c :: cs).dropWhile is_word_char) true
            = pronoun_run_count ((c :: cs).dropWhile is_word_char) := by
          have h2 := (ih _ hrest_len).2
          rwa [dropWhile_eq_self_of_at_word_end _ hbrest] at h2
        constructor
        · by_cases hcont :
              pronoun_list.contains (((c :: cs).takeWhile is_word_char).map Char.toLower) = true
          · have hm := hmatch
            rw [if_pos hcont] at hm
            rw [scan_pronouns_cons_some c cs _ hm, pronoun_run_count_cons_word c cs hc,
              if_pos hcont, hscan_true]
          · have hm := hmatch
            rw [if_neg hcont] at hm
            rw [scan_pronouns_cons_none c cs hm, pronoun_run_count_cons_word c cs hc,
              if_neg hcont, hc, hdw, Nat.zero_add]
            exact (ih cs hcs).2
        · rw [scan_pronouns_cons_true, hc, hdw]
          exact (ih cs hcs).2
      · have hcf : is_word_char c = false := by simpa using hc
        have hm : match_pronoun pronoun_list (c :: cs) = none :=
          match_pronoun_nonword pronoun_list c cs hcf pronoun_list_alpha
        have hdw2 : (c :: cs).dropWhile is_word_char = c :: cs := by
          simp [List.dropWhile_cons, hcf]
        constructor
        · rw [scan_pronouns_cons_none c cs hm, pronoun_run_count_cons_nonword c cs hcf, hcf]
          exact (ih cs hcs).1
        · rw [scan_pronouns_cons_true, hcf, hdw2, pronoun_run_count_cons_nonword c cs hcf]
          exact (ih cs hcs).1

/-- C9: the regex-based pronoun counter counts exactly the whole-word,
case-insensitive occurrences of I, we, my, ours, us in the text: every
maximal word-character run whose lower-cased form is one of the five pronouns
contributes 1, and nothing else contributes — in particular an "us" embedded
in a longer word such as "bus" contributes 0, while a standalone occurrence
in any letter case contributes 1. -/
theorem C9_pronouns_whole_word (text : String) :
    count_personal_pronouns text = whole_word_pronoun_count text :=
  (scan_eq_run_count text.data.length text.data (Nat.le_refl _)).1
